import Mathlib

/-!
Verification development for the fMRIflows first-level analysis pipeline
(notebook `03_analysis_1st-level.ipynb`).

The notebook resolves a JSON specification (contrast definitions, repetition
time, filter settings), builds per-subject/per-filter branches of a nipype
workflow, and wires pure helper functions (`subjectinfo`,
`create_nuisance_regressors`, `get_contrast_per_run`, `write_labels_file`)
into that workflow.  The definitions below shallowly embed those helper
functions and the configuration-resolution steps; the engine-level iterable
expansion, which lives in the external workflow engine and not in this
repository's sources, is modelled from the specification where noted.

Numeric table entries (onsets, durations, confound values, repetition time)
are modelled as rationals; machine floats carry exact decimal values in all
the codepaths embedded here (no float arithmetic is performed on them other
than subtraction, which the rational model reflects).
-/

/-- Error taxonomy of the specification's configuration stage:
configuration-time failures are fatal and happen before any node executes. -/
inductive ConfigError where
  | emptyIterableAxis (axisName : String)
  | missingTaskMetadata (taskId : String)
  | missingField (fieldName : String)
  deriving Repr, DecidableEq

/-- Modelled from the spec: the workflow engine's Cartesian-product expansion
of iterable axes (the engine is the external nipype library; only the axis
declarations `infosource.iterables` / `selectfiles.iterables` are in the
sources).  Axis declaration order is the list order; within an axis the
sequence order is kept: the first axis varies slowest, the last fastest. -/
def cartesian : List (String × List α) → List (List (String × α))
  | [] => [[]]
  | (n, vs) :: rest => vs.flatMap (fun v => (cartesian rest).map (fun t => (n, v) :: t))

/-- Modelled from the spec: `expand` of the IterableExpander.  It fails with
`ConfigError` ("empty iterable axis") when some declared axis is an empty
sequence, and otherwise yields one parameter tuple per element of the
Cartesian product of the axes, in a fixed order. -/
def expand (axes : List (String × List α)) : Except ConfigError (List (List (String × α))) :=
  match axes.find? (fun a => a.2.isEmpty) with
  | some a => .error (.emptyIterableAxis a.1)
  | none => .ok (cartesian axes)

/-- Zero-padding of a decimal representation to a minimal width, as Python's
`'%04d'`/`'%05d'` format specifiers do for non-negative arguments. -/
def padNum (width n : Nat) : String :=
  let s := toString n
  String.mk (List.replicate (width - s.length) '0' ++ s.toList)

/-- Auto-generated name of the `i`-th embedded T-contrast of an F-contrast:
`'T_con_%04d' % i` in the source. -/
def tConName (i : Nat) : String := "T_con_" ++ padNum 4 i

/-- One user-declared contrast from the `contrasts` field of the JSON
specification: a name, a type string, and a `weights` value.  In the JSON a
T-entry's weights are one vector and an F-entry's weights are a list of
vectors; the weight items are kept abstract (`α`) since the resolution code
only enumerates or passes them through. -/
structure ConSpec (α : Type) where
  name : String
  ctype : String
  weights : List α
  deriving Repr, DecidableEq

/-- An embedded T-contrast inside a resolved F-contrast:
`['T_con_%04d' % i, 'T', condition_names, f]`. -/
structure EmbeddedT (α : Type) where
  name : String
  ty : String
  conds : List String
  w : α
  deriving Repr, DecidableEq

/-- A resolved contrast, one element of the notebook's `contrast_list`:
either `[name, type, condition_names, weights]` (T form) or
`[name, type, embedded-T-list]` (F form). -/
inductive Resolved (α : Type) where
  | tcon (name : String) (ty : String) (conds : List String) (w : List α)
  | fcon (name : String) (ty : String) (sub : List (EmbeddedT α))
  deriving Repr, DecidableEq

/-- The `type` field (second list slot) of a resolved contrast. -/
def Resolved.rtype : Resolved α → String
  | .tcon _ ty _ _ => ty
  | .fcon _ ty _ => ty

instance : Inhabited (Resolved α) := ⟨.fcon "" "" []⟩

/-- The embedded T-contrast list built for one F-entry:
`[['T_con_%04d' % i, 'T', condition_names, f] for i, f in enumerate(c['weights'])]`. -/
def embeddedOf (conds : List String) (c : ConSpec α) : List (EmbeddedT α) :=
  c.weights.enum.map (fun p => ⟨tConName p.1, "T", conds, p.2⟩)

/-- The notebook's contrast resolution:
`contrast_list = [[c['name'], c['type'], [['T_con_%04d' % i, 'T', condition_names, f]
for i, f in enumerate(c['weights'])]] for c in con_specs if c['type'] == 'F']`
followed by
`contrast_list += [[c['name'], c['type'], condition_names, c['weights']]
for c in con_specs if c['type'] == 'T']`. -/
def contrast_list (conds : List String) (cs : List (ConSpec α)) : List (Resolved α) :=
  (cs.filter (fun c => c.ctype == "F")).map (fun c => .fcon c.name c.ctype (embeddedOf conds c))
    ++ (cs.filter (fun c => c.ctype == "T")).map (fun c => .tcon c.name c.ctype conds c.weights)

/-- One row of a BIDS `*_events.tsv` event table: condition, onset, duration. -/
structure Row where
  cond : String
  onset : Rat
  duration : Rat
  deriving Repr, DecidableEq

/-- Lexicographic comparison of code-point sequences: the string order used
by Python's `sorted` (and by pandas when sorting group keys). -/
def lexLe : List Char → List Char → Bool
  | [], _ => true
  | _ :: _, [] => false
  | a :: as, b :: bs => if a < b then true else if b < a then false else lexLe as bs

/-- String comparison by code points. -/
def strLe (s t : String) : Bool := lexLe s.toList t.toList

/-- Insertion into a list sorted ascending by the string key: helper for the
model of `sorted(...)` on file names. -/
def insertFst (p : String × α) : List (String × α) → List (String × α)
  | [] => [p]
  | q :: rest => if strLe p.1 q.1 then p :: q :: rest else q :: insertFst p rest

/-- Python's `sorted` on (name, content) pairs, ordering by name ascending. -/
def sortFst (l : List (String × α)) : List (String × α) :=
  l.foldr insertFst []

/-- Ascending insertion of a string into a sorted list of strings. -/
def insertStr (s : String) : List String → List String
  | [] => [s]
  | t :: rest => if strLe s t then s :: t :: rest else t :: insertStr s rest

/-- Sorting a list of strings ascending, as pandas `groupby` sorts its group
keys. -/
def sortStrings (l : List String) : List String :=
  l.foldr insertStr []

/-- The `Bunch(conditions=..., onsets=..., durations=...)` record built per
run by `subjectinfo`. -/
structure Bunch where
  conditions : List String
  onsets : List (List Rat)
  durations : List (List Rat)
  deriving Repr, DecidableEq

instance : Inhabited Bunch := ⟨⟨[], [], []⟩⟩

/-- The body of `subjectinfo`'s per-run loop: group the event table by its
`condition` column (pandas sorts the group keys ascending and keeps row order
inside a group), skip the group named `'empty'`, and record per kept group the
condition name, the onsets shifted by the run's non-steady-state value
(`group[1].onset - nss`), and the unchanged durations. -/
def runInfo (table : List Row) (nss : Rat) : Bunch :=
  let keys := (sortStrings ((table.map (fun r => r.cond)).dedup)).filter (fun c => c ≠ "empty")
  { conditions := keys
  , onsets := keys.map (fun c => (table.filter (fun r => r.cond == c)).map (fun r => r.onset - nss))
  , durations := keys.map (fun c => (table.filter (fun r => r.cond == c)).map (fun r => r.duration)) }

/-- The notebook's `subjectinfo`: event files and non-steady-state files are
each collected by a glob and sorted by name; the loop pairs them positionally
(`nss_files[i]` against the `i`-th event file), builds one `Bunch` per run,
and records the full `condition` column of each run (including `'empty'`
rows) as `stimuli_order`. -/
def subjectinfo (event_files : List (String × List Row)) (nss_files : List (String × Rat)) :
    List Bunch × List (List String) :=
  let evs := sortFst event_files
  let nss := sortFst nss_files
  ((evs.zip nss).map (fun p => runInfo p.1.2 p.2.2),
   (evs.zip nss).map (fun p => p.1.2.map (fun r => r.cond)))

/-- Boolean substring test on character lists: Python's `n in k` for strings. -/
def isInfixB (n : List Char) : List Char → Bool
  | [] => n.isEmpty
  | c :: rest => n.isPrefixOf (c :: rest) || isInfixB n rest

/-- `containsSub k n` holds when the selector `n` occurs as a substring of the
column header `k` (Python `n in k`). -/
def containsSub (k n : String) : Bool := isInfixB n.toList k.toList

/-- The column selection of `create_nuisance_regressors`:
`selection = [k for k in df.keys() for n in nuisance_regressors if n in k]` —
for each column header in table order, one copy of the header per selector
that occurs in it. -/
def selection (keys : List String) (sels : List String) : List String :=
  keys.flatMap (fun k => (sels.filter (fun n => containsSub k n)).map (fun _ => k))

/-- `df[selection]` for one confound table modelled as an ordered list of
(header, column-values) pairs with distinct headers: the selected columns in
selection order, looking each header up in the table. -/
def regressorColumns (df : List (String × List Rat)) (sels : List String) :
    List (String × List Rat) :=
  (selection (df.map (fun p => p.1)) sels).map
    (fun k => (k, ((df.find? (fun p => p.1 == k)).map (fun p => p.2)).getD []))

/-- The notebook's `create_nuisance_regressors`: one regressor file is written
per confound file, holding the values of the selected columns of that file's
table. -/
def create_nuisance_regressors (confounds : List (List (String × List Rat)))
    (sels : List String) : List (List (String × List Rat)) :=
  confounds.map (fun df => regressorColumns df sels)

/-- The `event_info` aggregation of `get_contrast_per_run`: the loop
`for i, l in enumerate(stimuli_order)` tags every event of run `i` with the
run index, and the tagged events of all runs are concatenated
(`np.reshape(event_list, (-1, 2))`). -/
def eventInfoAux (i : Nat) : List (List String) → List (Nat × String)
  | [] => []
  | l :: rest => l.map (fun c => (i, c)) ++ eventInfoAux (i + 1) rest

/-- `n_conditions` of `get_contrast_per_run`: the number of distinct run
indices occurring in `event_info` (`len(np.unique(event_info[:,0]))`), i.e.
the number of runs that contribute at least one event.  This matches the
source exactly when `event_list` is rectangular — all runs with the same
event count, including the all-empty case where `event_info` has zero rows —
because only then does `np.reshape(event_list, (-1, 2))` build the flat
per-event array read here; for ragged per-run counts the source instead gets
an object array of per-run lists (or a reshape error), a degeneration this
embedding does not model and the amended C4 theorem excludes by hypothesis. -/
def distinctRunCount (stimuli_order : List (List String)) : Nat :=
  (((eventInfoAux 0 stimuli_order).map (fun p => p.1)).dedup).length

/-- Name of one per-run contrast: `'cont_%05d' % (1 + i + j * n_conditions)`. -/
def contName (k : Nat) : String := "cont_" ++ padNum 5 k

/-- A zero vector of length `n` with a single `1` at position `i`:
`np.zeros(n).tolist()` followed by setting index `i` to `1`. -/
def unitVec (n i : Nat) : List Rat :=
  (List.range n).map (fun t => if t = i then 1 else 0)

/-- One resolved per-run contrast `[name, 'T', condition_names, con_id, run_id]`. -/
structure RunContrast where
  name : String
  ty : String
  conds : List String
  con_id : List Rat
  run_id : List Rat
  deriving Repr, DecidableEq

/-- The notebook's `get_contrast_per_run`: for every run index `j` (ranging
over the distinct run indices found in `stimuli_order`) and every condition
index `i` (ranging over `condition_names`) it appends one T-contrast selecting
condition `i` in run `j`, and one label `condition_names[i]`. -/
def get_contrast_per_run (stimuli_order : List (List String))
    (condition_names : List String) : List RunContrast × List String :=
  let n_contrasts := condition_names.length
  let n_conditions := distinctRunCount stimuli_order
  ((List.range n_conditions).flatMap (fun j =>
      (List.range n_contrasts).map (fun i =>
        ⟨contName (1 + i + j * n_conditions), "T", condition_names,
         unitVec n_contrasts i, unitVec n_conditions j⟩)),
   (List.range n_conditions).flatMap (fun _ =>
      (List.range n_contrasts).map (fun i => condition_names.getD i "")))

/-- The notebook's `write_labels_file`: `np.savetxt(label_file,
condition_labels, fmt='%s')` writes one row per label, in order; the result
models the rows of the written label file. -/
def write_labels_file (condition_labels : List String) : List String :=
  condition_labels

/-- Path of the task metadata file read during configuration resolution:
`opj('/data', 'task-%s_bold.json' % task_id)`. -/
def taskMetaPath (task_id : String) : String :=
  "/data/task-" ++ task_id ++ "_bold.json"

/-- The configuration-resolution step that derives the repetition time: the
notebook opens `task-<task_id>_bold.json` and reads its `RepetitionTime`
entry.  The filesystem is modelled as a list of (path, JSON-object) pairs; no
metadata file keyed by the task id is a fatal configuration error, raised
before the workflow object is even constructed. -/
def resolveTR (fs : List (String × List (String × Rat))) (task_id : String) :
    Except ConfigError Rat :=
  match fs.find? (fun p => p.1 == taskMetaPath task_id) with
  | none => .error (.missingTaskMetadata task_id)
  | some f =>
    match f.2.find? (fun p => p.1 == "RepetitionTime") with
    | none => .error (.missingField "RepetitionTime")
    | some p => .ok p.2

/-! ## Helper lemmas -/

theorem flatMap_pure_map (l : List α) (f : α → β) :
    l.flatMap (fun x => [f x]) = l.map f := by
  induction l with
  | nil => rfl
  | cons a t ih => simp [List.flatMap_cons, ih]

theorem length_flatMap_const (l : List α) (f : α → List β) (n : Nat)
    (h : ∀ a ∈ l, (f a).length = n) : (l.flatMap f).length = l.length * n := by
  induction l with
  | nil => simp
  | cons a t ih =>
    simp only [List.flatMap_cons, List.length_append, List.length_cons]
    rw [h a (by simp), ih (fun b hb => h b (by simp [hb]))]
    ring

theorem isEmpty_false_of_ne_nil {l : List α} (h : l ≠ []) : l.isEmpty = false := by
  cases l with
  | nil => exact absurd rfl h
  | cons a t => rfl

/-! ## C1 / C2: iterable expansion -/

/-- C1: for iterable axes of sizes `m`, `n` and `k` (none empty), expansion
succeeds and yields exactly the Cartesian product, enumerated in axis
declaration order (first axis slowest) and within-axis sequence order, with
exactly `m * n * k` parameter tuples.  Enumeration is a pure function of the
axes, so repeated expansions of the same input give the identical list. -/
theorem expand_cartesian_product (an bn cn : String) (A B C : List α)
    (hA : A ≠ []) (hB : B ≠ []) (hC : C ≠ []) :
    expand [(an, A), (bn, B), (cn, C)] =
      .ok (A.flatMap (fun a => B.flatMap (fun b =>
        C.map (fun c => [(an, a), (bn, b), (cn, c)]))))
    ∧ (A.flatMap (fun a => B.flatMap (fun b =>
        C.map (fun c => [(an, a), (bn, b), (cn, c)])))).length
      = A.length * B.length * C.length := by
  constructor
  · have h1 : ¬((an, A).2.isEmpty = true) := by
      simp [isEmpty_false_of_ne_nil hA]
    have h2 : ¬((bn, B).2.isEmpty = true) := by
      simp [isEmpty_false_of_ne_nil hB]
    have h3 : ¬((cn, C).2.isEmpty = true) := by
      simp [isEmpty_false_of_ne_nil hC]
    unfold expand
    rw [@List.find?_cons_of_neg _ (fun a : String × List α => a.2.isEmpty) _ _ h1,
      @List.find?_cons_of_neg _ (fun a : String × List α => a.2.isEmpty) _ _ h2,
      @List.find?_cons_of_neg _ (fun a : String × List α => a.2.isEmpty) _ _ h3]
    simp only [List.find?_nil]
    congr 1
    simp only [cartesian, List.map_cons, List.map_nil, flatMap_pure_map,
      List.map_flatMap, List.map_map, Function.comp]
    rfl
  · rw [length_flatMap_const _ _ (B.length * C.length)]
    · ring
    · intro a _
      rw [length_flatMap_const _ _ C.length]
      intro b _
      exact List.length_map _ _

/-- Witness for C1 at a concrete input: two subjects, one temporal filter,
two spatial filters give four branches in the declared order. -/
theorem expand_cartesian_product_witness :
    expand [("subject_id", ["01", "02"]), ("tFilter", ["t1"]), ("sFilter", ["s1", "s2"])] =
      .ok [[("subject_id", "01"), ("tFilter", "t1"), ("sFilter", "s1")],
           [("subject_id", "01"), ("tFilter", "t1"), ("sFilter", "s2")],
           [("subject_id", "02"), ("tFilter", "t1"), ("sFilter", "s1")],
           [("subject_id", "02"), ("tFilter", "t1"), ("sFilter", "s2")]] := by
  have h := expand_cartesian_product "subject_id" "tFilter" "sFilter"
    ["01", "02"] ["t1"] ["s1", "s2"] (by decide) (by decide) (by decide)
  rw [h.1]
  rfl

/-- C2: an empty iterable axis makes expansion fail with
`ConfigError.emptyIterableAxis` instead of producing zero branches. -/
theorem expand_empty_axis_error (axes : List (String × List α)) (name : String)
    (h : (name, ([] : List α)) ∈ axes) :
    ∃ n, expand axes = .error (.emptyIterableAxis n) := by
  have hne : axes.find? (fun a => a.2.isEmpty) ≠ none := by
    rw [Ne, List.find?_eq_none]
    intro hall
    exact hall (name, []) h rfl
  obtain ⟨a, ha⟩ := Option.ne_none_iff_exists'.mp hne
  exact ⟨a.1, by unfold expand; rw [ha]⟩

/-- Witness for C2: a declared subject axis next to an empty temporal-filter
axis makes expansion fail before any branch exists. -/
theorem expand_empty_axis_error_witness :
    ∃ n, expand [("subject_id", ["01"]), ("tFilter", ([] : List String))]
      = .error (.emptyIterableAxis n) :=
  expand_empty_axis_error _ "tFilter" (by decide)

/-! ## C7: repetition-time metadata resolution -/

/-- C7: when no metadata file is keyed by the given task id, deriving the
repetition time fails with the configuration error
`ConfigError.missingTaskMetadata`; this happens while resolving the
configuration, before the workflow (and hence any node) exists. -/
theorem resolveTR_missing_metadata (fs : List (String × List (String × Rat)))
    (task_id : String) (h : ∀ p ∈ fs, p.1 ≠ taskMetaPath task_id) :
    resolveTR fs task_id = .error (.missingTaskMetadata task_id) := by
  have hfind : fs.find? (fun p => p.1 == taskMetaPath task_id) = none := by
    rw [List.find?_eq_none]
    intro p hp
    simpa using h p hp
  unfold resolveTR
  rw [hfind]

/-- Witness for C7: metadata exists only for task `motor`, so resolving task
`rest` fails with the missing-metadata configuration error. -/
theorem resolveTR_missing_metadata_witness :
    resolveTR [("/data/task-motor_bold.json", [("RepetitionTime", 2)])] "rest"
      = .error (.missingTaskMetadata "rest") :=
  resolveTR_missing_metadata _ "rest" (by decide)

/-! ## C3 / C9: contrast resolution -/

theorem contrast_list_getD_of_lt_F {α : Type} (conds : List String)
    (cs : List (ConSpec α)) (i : Nat) (d : Resolved α)
    (hi : i < (cs.filter (fun c => c.ctype == "F")).length) :
    ((contrast_list conds cs).getD i d).rtype = "F" := by
  have hlen : i < (contrast_list conds cs).length := by
    unfold contrast_list
    simp only [List.length_append, List.length_map]
    omega
  rw [List.getD_eq_getElem _ _ hlen]
  unfold contrast_list
  rw [List.getElem_append_left (by simpa using hi)]
  rw [List.getElem_map]
  have hmem := List.getElem_mem hi
  have := (List.mem_filter.mp hmem).2
  simpa [Resolved.rtype] using this

theorem contrast_list_getD_of_ge_F {α : Type} (conds : List String)
    (cs : List (ConSpec α)) (i : Nat) (d : Resolved α)
    (hge : (cs.filter (fun c => c.ctype == "F")).length ≤ i)
    (hlt : i < (contrast_list conds cs).length) :
    ((contrast_list conds cs).getD i d).rtype = "T" := by
  rw [List.getD_eq_getElem _ _ hlt]
  unfold contrast_list
  have hlen : i < ((cs.filter (fun c => c.ctype == "F")).map
      (fun c => Resolved.fcon c.name c.ctype (embeddedOf conds c))
      ++ (cs.filter (fun c => c.ctype == "T")).map
      (fun c => Resolved.tcon c.name c.ctype conds c.weights)).length := by
    unfold contrast_list at hlt
    exact hlt
  rw [List.getElem_append_right (by simpa using hge)]
  rw [List.getElem_map]
  have hi2 : i - ((cs.filter (fun c => c.ctype == "F")).map
      (fun c => Resolved.fcon c.name c.ctype (embeddedOf conds c))).length
      < (cs.filter (fun c => c.ctype == "T")).length := by
    simp only [List.length_append, List.length_map] at hlen ⊢
    omega
  have hmem := List.getElem_mem hi2
  have := (List.mem_filter.mp hmem).2
  simpa [Resolved.rtype] using this

/-- C3: config resolution canonicalizes each user-declared contrast.  A
declared T-entry becomes the quadruple `(name, 'T', condition-names, weight
vector)`; a declared F-entry becomes the triple `(name, 'F', embedded list)`
whose embedded list has one auto-named T-contrast per weight row, the `i`-th
carrying the name `'T_con_%04d' % i`, the full condition-name list and the
`i`-th weight row. -/
theorem contrast_list_canonical_forms {α : Type} (conds : List String)
    (cs : List (ConSpec α)) (c : ConSpec α) (hc : c ∈ cs) :
    (c.ctype = "T" →
      Resolved.tcon c.name "T" conds c.weights ∈ contrast_list conds cs)
    ∧ (c.ctype = "F" →
      Resolved.fcon c.name "F" (embeddedOf conds c) ∈ contrast_list conds cs
      ∧ (embeddedOf conds c).length = c.weights.length
      ∧ ∀ p ∈ c.weights.enum,
          (⟨tConName p.1, "T", conds, p.2⟩ : EmbeddedT α) ∈ embeddedOf conds c) := by
  constructor
  · intro hT
    have hf : c ∈ cs.filter (fun c => c.ctype == "T") :=
      List.mem_filter.mpr ⟨hc, by simp [hT]⟩
    have : Resolved.tcon c.name c.ctype conds c.weights ∈
        (cs.filter (fun c => c.ctype == "T")).map
          (fun c => Resolved.tcon c.name c.ctype conds c.weights) :=
      List.mem_map_of_mem _ hf
    rw [hT] at this
    exact List.mem_append_right _ this
  · intro hF
    refine ⟨?_, by simp [embeddedOf], ?_⟩
    · have hf : c ∈ cs.filter (fun c => c.ctype == "F") :=
        List.mem_filter.mpr ⟨hc, by simp [hF]⟩
      have : Resolved.fcon c.name c.ctype (embeddedOf conds c) ∈
          (cs.filter (fun c => c.ctype == "F")).map
            (fun c => Resolved.fcon c.name c.ctype (embeddedOf conds c)) :=
        List.mem_map_of_mem _ hf
      rw [hF] at this
      exact List.mem_append_left _ this
    · intro p hp
      exact List.mem_map_of_mem _ hp

/-- Witness for C3 on a concrete specification with one F-entry of two weight
rows and one T-entry. -/
theorem contrast_list_canonical_forms_witness :
    (Resolved.tcon "tc" "T" ["c1", "c2"] [[1, -1]]
        ∈ contrast_list ["c1", "c2"]
            ([⟨"fc", "F", [[1, 0], [0, 1]]⟩, ⟨"tc", "T", [[1, -1]]⟩] : List (ConSpec (List Int))))
    ∧ (Resolved.fcon "fc" "F" (embeddedOf ["c1", "c2"] ⟨"fc", "F", [[1, 0], [0, 1]]⟩)
        ∈ contrast_list ["c1", "c2"]
            ([⟨"fc", "F", [[1, 0], [0, 1]]⟩, ⟨"tc", "T", [[1, -1]]⟩] : List (ConSpec (List Int)))) :=
  ⟨(contrast_list_canonical_forms ["c1", "c2"] _ ⟨"tc", "T", [[1, -1]]⟩ (by decide)).1 rfl,
   ((contrast_list_canonical_forms ["c1", "c2"] _ ⟨"fc", "F", [[1, 0], [0, 1]]⟩ (by decide)).2 rfl).1⟩

/-- C9: a declared contrast whose type is neither `'T'` nor `'F'` is silently
omitted — the resolution is total (no error value) and yields exactly one
entry per T- or F-typed declaration — and in the resolved list every F-entry
precedes every T-entry, whatever the declaration order was. -/
theorem contrast_list_type_filter_order {α : Type}
    (conds : List String) (cs : List (ConSpec α)) :
    (contrast_list conds cs).length
        = (cs.filter (fun c => c.ctype == "F")).length
          + (cs.filter (fun c => c.ctype == "T")).length
    ∧ (∀ r ∈ contrast_list conds cs, r.rtype = "F" ∨ r.rtype = "T")
    ∧ ∀ i j, i < (contrast_list conds cs).length →
        j < (contrast_list conds cs).length →
        ((contrast_list conds cs).getD i default).rtype = "F" →
        ((contrast_list conds cs).getD j default).rtype = "T" → i < j := by
  refine ⟨?_, ?_, ?_⟩
  · unfold contrast_list
    simp
  · intro r hr
    unfold contrast_list at hr
    rcases List.mem_append.mp hr with h | h
    · obtain ⟨c, hcf, rfl⟩ := List.mem_map.mp h
      left
      simpa [Resolved.rtype] using (List.mem_filter.mp hcf).2
    · obtain ⟨c, hct, rfl⟩ := List.mem_map.mp h
      right
      simpa [Resolved.rtype] using (List.mem_filter.mp hct).2
  · intro i j hi hj hFi hTj
    have hjge : (cs.filter (fun c => c.ctype == "F")).length ≤ j := by
      by_contra hlt2
      have := contrast_list_getD_of_lt_F conds cs j default (by omega)
      rw [hTj] at this
      exact absurd this (by decide)
    have hilt : i < (cs.filter (fun c => c.ctype == "F")).length := by
      by_contra hge2
      have := contrast_list_getD_of_ge_F conds cs i default (by omega) hi
      rw [hFi] at this
      exact absurd this (by decide)
    omega

/-! ## C4: per-run contrasts and label file -/

theorem runIds_toFinset (so : List (List String)) (h : ∀ l ∈ so, l ≠ []) :
    ∀ k, ((eventInfoAux k so).map Prod.fst).toFinset = Finset.Ico k (k + so.length) := by
  induction so with
  | nil => intro k; simp [eventInfoAux]
  | cons l rest ih =>
    intro k
    have hl : l ≠ [] := h l (by simp)
    have hrest : ∀ x ∈ rest, x ≠ [] := fun x hx => h x (by simp [hx])
    obtain ⟨c, l', rfl⟩ := List.exists_cons_of_ne_nil hl
    ext a
    simp only [eventInfoAux, List.map_append, List.map_map, List.toFinset_append,
      Finset.mem_union, List.mem_toFinset, List.mem_map, ih hrest, Finset.mem_Ico,
      List.length_cons, List.mem_cons, Function.comp]
    constructor
    · rintro (⟨b, hb, rfl⟩ | ⟨h1, h2⟩) <;> omega
    · intro hk
      by_cases hak : a = k
      · exact Or.inl ⟨c, Or.inl rfl, hak.symm⟩
      · exact Or.inr ⟨by omega, by omega⟩

theorem distinctRunCount_eq (so : List (List String)) (h : ∀ l ∈ so, l ≠ []) :
    distinctRunCount so = so.length := by
  unfold distinctRunCount
  rw [← List.card_toFinset, runIds_toFinset so h 0]
  simp [Nat.card_Ico]

theorem flatMap_const_getD (L : List β) (d : β) :
    ∀ (m k : Nat), k < m * L.length →
      ((List.range m).flatMap (fun _ => L)).getD k d = L.getD (k % L.length) d := by
  intro m
  induction m with
  | zero => intro k hk; omega
  | succ m ih =>
    intro k hk
    have hlen : ((List.range m).flatMap (fun _ => L)).length = m * L.length := by
      rw [length_flatMap_const (List.range m) _ L.length (fun _ _ => rfl), List.length_range]
    have hmul : (m + 1) * L.length = m * L.length + L.length := by ring
    rw [List.range_succ, List.flatMap_append]
    by_cases hcase : k < m * L.length
    · rw [List.getD_append _ _ _ _ (by rw [hlen]; exact hcase)]
      exact ih k hcase
    · have hge : m * L.length ≤ k := by omega
      rw [List.getD_append_right _ _ _ _ (by rw [hlen]; exact hge)]
      rw [hlen]
      simp only [List.flatMap_cons, List.flatMap_nil, List.append_nil]
      have hr : k - m * L.length < L.length := by omega
      have hmod2 : k % L.length = k - m * L.length := by
        have h2 : (k - m * L.length) + m * L.length = k := by omega
        calc k % L.length = ((k - m * L.length) + m * L.length) % L.length := by rw [h2]
          _ = (k - m * L.length) % L.length := Nat.add_mul_mod_self_right _ _ _
          _ = k - m * L.length := Nat.mod_eq_of_lt hr
      rw [hmod2]

theorem range_map_getD (cn : List String) (d : String) :
    (List.range cn.length).map (fun i => cn.getD i d) = cn := by
  apply List.ext_getElem
  · simp
  · intro n h1 h2
    rw [List.getElem_map]
    rw [List.getElem_range]
    exact List.getD_eq_getElem _ _ h2

/-- C4 counterexample: a subject with two runs whose event tables are both
empty (`stimuli_order = [[], []]`, so two event files) and two condition
names gets zero per-run contrasts and an empty label file, not
`len(condition_names) * number_of_runs_for_that_subject = 4` as the claim
states: `n_conditions` is derived from the run indices present in
`event_info`, not from the subject's run count.  At this input the source
needs no raggedness caveat: `np.reshape` of the empty rectangular
`event_list` yields a `(0, 2)` array and `np.unique` of its empty run column
is empty, so the notebook's loops run zero times, exactly as the embedding
computes. -/
theorem get_contrast_per_run_counterexample :
    (get_contrast_per_run [[], []] ["x", "y"]).1.length = 0
    ∧ (write_labels_file (get_contrast_per_run [[], []] ["x", "y"]).2).length = 0
    ∧ ¬ ((get_contrast_per_run [[], []] ["x", "y"]).1.length
          = (["x", "y"] : List String).length * ([[], []] : List (List String)).length) := by
  decide

/-- C4 (amended): when every run's event table for the subject has the same
positive number of rows (the rectangular case `np.reshape` needs to form the
per-event `event_info` array; in particular no run is empty), the per-run
contrast builder yields exactly `len(condition_names) * number_of_runs`
contrasts, the label file written by `write_labels_file` has exactly that
many rows, and its `k`-th row is `condition_names[k % len(condition_names)]`. -/
theorem get_contrast_per_run_counts (so : List (List String)) (cn : List String)
    (m : Nat) (hm : 0 < m) (h : ∀ l ∈ so, l.length = m) :
    (get_contrast_per_run so cn).1.length = cn.length * so.length
    ∧ (write_labels_file (get_contrast_per_run so cn).2).length = cn.length * so.length
    ∧ ∀ k, k < (write_labels_file (get_contrast_per_run so cn).2).length →
        (write_labels_file (get_contrast_per_run so cn).2).getD k ""
          = cn.getD (k % cn.length) "" := by
  have hne : ∀ l ∈ so, l ≠ [] := by
    intro l hl hnil
    have := h l hl
    rw [hnil] at this
    simp at this
    omega
  have hcount : distinctRunCount so = so.length := distinctRunCount_eq so hne
  have hlab : (get_contrast_per_run so cn).2
      = (List.range (distinctRunCount so)).flatMap (fun _ => cn) := by
    unfold get_contrast_per_run
    simp only []
    congr 1
    funext j
    exact range_map_getD cn ""
  refine ⟨?_, ?_, ?_⟩
  · unfold get_contrast_per_run
    simp only []
    rw [length_flatMap_const _ _ cn.length (by intro a _; simp)]
    rw [hcount, List.length_range, Nat.mul_comm]
  · unfold write_labels_file
    rw [hlab, length_flatMap_const _ _ cn.length (fun _ _ => rfl)]
    rw [hcount, List.length_range, Nat.mul_comm]
  · intro k hk
    unfold write_labels_file at hk ⊢
    rw [hlab] at hk ⊢
    have hklen : k < (List.range (distinctRunCount so)).length * cn.length := by
      rw [← length_flatMap_const _ _ cn.length (fun _ _ => rfl)]
      exact hk
    rw [List.length_range] at hklen
    exact flatMap_const_getD cn "" (distinctRunCount so) k hklen

/-- Witness for C4: two runs of two events each and two condition names give
four per-run contrasts and a four-row label file alternating the condition
names. -/
theorem get_contrast_per_run_counts_witness :
    (get_contrast_per_run [["x", "y"], ["x", "x"]] ["x", "y"]).1.length = 4
    ∧ (write_labels_file (get_contrast_per_run [["x", "y"], ["x", "x"]] ["x", "y"]).2).getD 3 ""
        = "y" := by
  have hw := get_contrast_per_run_counts [["x", "y"], ["x", "x"]] ["x", "y"] 2
    (by decide) (by decide)
  refine ⟨by simpa using hw.1, ?_⟩
  rw [hw.2.2 3 (by rw [hw.2.1]; decide)]
  rfl

/-! ## C5 / C10: subject information -/

theorem insertFst_length (p : String × α) (l : List (String × α)) :
    (insertFst p l).length = l.length + 1 := by
  induction l with
  | nil => rfl
  | cons q rest ih =>
    unfold insertFst
    by_cases hle : strLe p.1 q.1 = true
    · simp [hle]
    · simp [hle, ih]

theorem sortFst_length (l : List (String × α)) : (sortFst l).length = l.length := by
  induction l with
  | nil => rfl
  | cons p rest ih =>
    show (insertFst p (sortFst rest)).length = rest.length + 1
    rw [insertFst_length, ih]

theorem runInfo_conditions (table : List Row) (nss : Rat) :
    (runInfo table nss).conditions
      = (sortStrings ((table.map (fun r => r.cond)).dedup)).filter (fun c => c ≠ "empty") := rfl

theorem runInfo_onsets (table : List Row) (nss : Rat) :
    (runInfo table nss).onsets
      = (runInfo table nss).conditions.map
          (fun c => (table.filter (fun r => r.cond == c)).map (fun r => r.onset - nss)) := rfl

theorem runInfo_durations (table : List Row) (nss : Rat) :
    (runInfo table nss).durations
      = (runInfo table nss).conditions.map
          (fun c => (table.filter (fun r => r.cond == c)).map (fun r => r.duration)) := rfl

theorem subjectinfo_fst_getD (evs : List (String × List Row))
    (nssf : List (String × Rat)) (hlen : evs.length = nssf.length)
    (i : Nat) (hi : i < evs.length) :
    (subjectinfo evs nssf).1.getD i default
      = runInfo ((sortFst evs).getD i ("", [])).2 ((sortFst nssf).getD i ("", 0)).2 := by
  have hz : i < ((sortFst evs).zip (sortFst nssf)).length := by
    rw [List.length_zip, sortFst_length, sortFst_length, ← hlen]
    simpa using hi
  have h1 : i < (sortFst evs).length := by rw [sortFst_length]; exact hi
  have h2 : i < (sortFst nssf).length := by rw [sortFst_length, ← hlen]; exact hi
  show (((sortFst evs).zip (sortFst nssf)).map (fun p => runInfo p.1.2 p.2.2)).getD i default
      = _
  rw [List.getD_eq_getElem _ _ (by simpa using hz), List.getElem_map, List.getElem_zip,
    List.getD_eq_getElem _ _ h1, List.getD_eq_getElem _ _ h2]

/-- C5: run tables and non-steady-state values are paired positionally after
sorting each file list by name, and within each run every onset handed to the
model is the event-table onset minus that run's non-steady-state value while
durations pass through unchanged (positionally: the `g`-th onset list belongs
to the `g`-th surviving condition and lists the onsets of exactly its rows,
in row order). -/
theorem subjectinfo_onset_shift (evs : List (String × List Row))
    (nssf : List (String × Rat)) (hlen : evs.length = nssf.length) :
    (∀ i, i < evs.length →
      (subjectinfo evs nssf).1.getD i default
        = runInfo ((sortFst evs).getD i ("", [])).2 ((sortFst nssf).getD i ("", 0)).2)
    ∧ ∀ (table : List Row) (nss : Rat) (g : Nat),
        g < (runInfo table nss).conditions.length →
        (runInfo table nss).onsets.getD g []
          = (table.filter (fun r =>
              r.cond == (runInfo table nss).conditions.getD g "")).map
              (fun r => r.onset - nss)
        ∧ (runInfo table nss).durations.getD g []
          = (table.filter (fun r =>
              r.cond == (runInfo table nss).conditions.getD g "")).map
              (fun r => r.duration) := by
  refine ⟨subjectinfo_fst_getD evs nssf hlen, ?_⟩
  intro table nss g hg
  constructor
  · rw [runInfo_onsets, List.getD_eq_getElem _ _ (by simpa using hg), List.getElem_map,
      List.getD_eq_getElem _ _ hg]
  · rw [runInfo_durations, List.getD_eq_getElem _ _ (by simpa using hg), List.getElem_map,
      List.getD_eq_getElem _ _ hg]

/-- Witness for C5: the second event file by name pairs with the second
non-steady-state value, and the onset 3 is shifted by that run's value 1. -/
theorem subjectinfo_onset_shift_witness :
    (subjectinfo [("r2", [⟨"a", 5, 2⟩]), ("r1", [⟨"b", 3, 1⟩])]
        [("r1", 1), ("r2", 2)]).1.getD 0 default
      = runInfo [⟨"b", 3, 1⟩] 1
    ∧ (runInfo [⟨"b", 3, 1⟩] 1).onsets.getD 0 [] = [3 - 1] := by
  have h := subjectinfo_onset_shift [("r2", [⟨"a", 5, 2⟩]), ("r1", [⟨"b", 3, 1⟩])]
    [("r1", 1), ("r2", 2)] rfl
  constructor
  · rw [h.1 0 (by decide)]
    rfl
  · rw [(h.2 [⟨"b", 3, 1⟩] 1 0 (by decide)).1]
    rfl

/-- C10: the condition lists handed to the model never contain `'empty'`
(those onsets and durations are dropped with their group), the onset/duration
lists stay aligned with the kept conditions, while `stimuli_order` still
lists every event row's condition — `'empty'` included — in event-table row
order. -/
theorem subjectinfo_stimuli_order_full (evs : List (String × List Row))
    (nssf : List (String × Rat)) (hlen : evs.length = nssf.length) :
    (∀ b ∈ (subjectinfo evs nssf).1, "empty" ∉ b.conditions
      ∧ b.onsets.length = b.conditions.length
      ∧ b.durations.length = b.conditions.length)
    ∧ ∀ i, i < evs.length →
        (subjectinfo evs nssf).2.getD i []
          = (((sortFst evs).getD i ("", [])).2).map (fun r => r.cond) := by
  constructor
  · intro b hb
    obtain ⟨p, _, rfl⟩ := List.mem_map.mp hb
    refine ⟨?_, by rw [runInfo_onsets, List.length_map], by rw [runInfo_durations, List.length_map]⟩
    rw [runInfo_conditions]
    intro hmem
    have := (List.mem_filter.mp hmem).2
    simp at this
  · intro i hi
    have hz : i < ((sortFst evs).zip (sortFst nssf)).length := by
      rw [List.length_zip, sortFst_length, sortFst_length, ← hlen]
      simpa using hi
    have h1 : i < (sortFst evs).length := by rw [sortFst_length]; exact hi
    show (((sortFst evs).zip (sortFst nssf)).map (fun p => p.1.2.map (fun r => r.cond))).getD i []
        = _
    rw [List.getD_eq_getElem _ _ (by simpa using hz), List.getElem_map, List.getElem_zip,
      List.getD_eq_getElem _ _ h1]

/-- Witness for C10: a run whose table holds an `'empty'` row and a `'go'`
row reports both in `stimuli_order` but only `'go'` among the modelled
conditions. -/
theorem subjectinfo_stimuli_order_full_witness :
    (subjectinfo [("f1", [⟨"empty", 0, 1⟩, ⟨"go", 2, 1⟩])] [("f1", 1)]).2.getD 0 []
      = ["empty", "go"]
    ∧ "empty" ∉ (runInfo [⟨"empty", 0, 1⟩, ⟨"go", 2, 1⟩] 1).conditions := by
  have h := subjectinfo_stimuli_order_full [("f1", [⟨"empty", 0, 1⟩, ⟨"go", 2, 1⟩])]
    [("f1", 1)] rfl
  constructor
  · rw [h.2 0 (by decide)]
    rfl
  · refine (h.1 (runInfo [⟨"empty", 0, 1⟩, ⟨"go", 2, 1⟩] 1) ?_).1
    show runInfo [⟨"empty", 0, 1⟩, ⟨"go", 2, 1⟩] 1 ∈ [runInfo [⟨"empty", 0, 1⟩, ⟨"go", 2, 1⟩] 1]
    exact List.mem_cons_self _ _

/-! ## C6: nuisance-regressor column selection -/

theorem selection_count (sels : List String) (k : String) (keys : List String) :
    (selection keys sels).count k
      = keys.count k * (sels.filter (fun n => containsSub k n)).length := by
  induction keys with
  | nil => simp [selection]
  | cons k' keys ih =>
    unfold selection at ih ⊢
    rw [List.flatMap_cons, List.count_append, ih, List.count_cons]
    by_cases hk : k' = k
    · subst hk
      rw [List.map_const', List.count_replicate]
      simp
      ring
    · have hb : (k' == k) = false := by simpa using hk
      rw [List.map_const', List.count_replicate, hb]
      simp

theorem selection_mem (keys sels : List String) (k : String) :
    k ∈ selection keys sels ↔ k ∈ keys ∧ ∃ n ∈ sels, containsSub k n = true := by
  unfold selection
  simp only [List.mem_flatMap, List.mem_map, List.mem_filter]
  constructor
  · rintro ⟨k', hk', n, ⟨hn, hcont⟩, rfl⟩
    exact ⟨hk', n, hn, hcont⟩
  · rintro ⟨hk, n, hn, hcont⟩
    exact ⟨k, hk, n, ⟨hn, hcont⟩, rfl⟩

/-- C6 counterexample: with nuisance selectors `'a'` and `'b'`, a confound
table whose single column is headed `'ab'` yields a regressor file whose
column list repeats that column — once per matching selector — refuting the
claim that each selected column appears exactly once. -/
theorem create_nuisance_regressors_counterexample :
    ((create_nuisance_regressors [[("ab", [1, 2])]] ["a", "b"]).getD 0 []).map (fun p => p.1)
      = ["ab", "ab"]
    ∧ ¬ ((((create_nuisance_regressors [[("ab", [1, 2])]] ["a", "b"]).getD 0 []).map
          (fun p => p.1)).count "ab" = 1) := by
  exact ⟨rfl, by decide⟩

/-- C6 (amended): the nuisance-regressor builder writes one regressor file
per confound file; the columns of the `i`-th file are, in the table's column
order, the headers that contain at least one selector as a substring — each
header appearing once per selector it contains (so a header matched by
several selectors is duplicated), not exactly once. -/
theorem create_nuisance_regressors_selection (confounds : List (List (String × List Rat)))
    (sels : List String) :
    (create_nuisance_regressors confounds sels).length = confounds.length
    ∧ (∀ i, i < confounds.length →
        ((create_nuisance_regressors confounds sels).getD i []).map (fun p => p.1)
          = selection ((confounds.getD i []).map (fun p => p.1)) sels)
    ∧ (∀ keys k, k ∈ selection keys sels ↔ k ∈ keys ∧ ∃ n ∈ sels, containsSub k n = true)
    ∧ ∀ keys k, (selection keys sels).count k
        = keys.count k * (sels.filter (fun n => containsSub k n)).length := by
  refine ⟨by simp [create_nuisance_regressors], ?_,
    fun keys k => selection_mem keys sels k, fun keys k => selection_count sels k keys⟩
  intro i hi
  unfold create_nuisance_regressors regressorColumns
  rw [List.getD_eq_getElem _ _ (by simpa using hi), List.getElem_map, List.map_map,
    List.getD_eq_getElem _ _ hi]
  exact List.map_id' _

/-- Witness for C6 (amended): header `'ab'` is matched by both selectors and
therefore counted twice in the selection for a table with columns `'ab'`,
`'cd'`. -/
theorem create_nuisance_regressors_selection_witness :
    (selection ["ab", "cd"] ["a", "b"]).count "ab" = 2 := by
  have h := create_nuisance_regressors_selection [] ["a", "b"]
  rw [h.2.2.2 ["ab", "cd"] "ab"]
  decide

/-- Witness for C9: a declaration list holding a T entry, a G entry and an F
entry resolves to just two contrasts — the G entry is silently dropped. -/
theorem contrast_list_type_filter_order_witness :
    (contrast_list ["c"]
      ([⟨"a", "T", [[1]]⟩, ⟨"b", "G", []⟩, ⟨"f", "F", [[1]]⟩] : List (ConSpec (List Int)))).length
      = 2 := by
  have h := contrast_list_type_filter_order ["c"]
    ([⟨"a", "T", [[1]]⟩, ⟨"b", "G", []⟩, ⟨"f", "F", [[1]]⟩] : List (ConSpec (List Int)))
  rw [h.1]
  decide
